import Mathlib

/-!
Verification of the ohlcv-hub routing and fallback orchestration engine.

This file gives a shallow embedding of the repository's core logic:

* `Candle` and its validating constructor (`models.py`),
* the symbol-pattern predicates and the routing function `pick`
  (`registry.py`),
* the four concrete providers' `supports` / `fetch` behaviour
  (`providers/binance.py`, `providers/yfinance.py`, `providers/tiingo.py`,
  `providers/finnhub.py`), and
* the orchestrator loop `fetch` (`registry.py`).

Modelling conventions, faithful to the Python source:

* Prices (Python floats) are modelled as rationals; every price comparison
  performed by the code is an order comparison, so this is exact on all
  non-NaN inputs.
* Upstream network responses and environment variables are explicit inputs
  (`World`, `Env`): each provider's fetch is a pure function of the request
  and of the raw data the upstream would have answered with.
* A raw field that is missing or non-numeric (so that the Python `int(...)` /
  `float(...)` conversion would raise) is modelled as `none`.
* A Python exception escaping a function is modelled as `Except.error`;
  the interpolated values of exception messages are omitted.
-/

/-- A Python exception that escapes a modelled function: `ValueError` as
raised by `Candle.__post_init__` and by failed numeric conversion, and
`RuntimeError` as raised for a missing API key. -/
inductive PyError where
  | valueError (msg : String)
  | runtimeError (msg : String)
deriving DecidableEq, Repr

instance {ε α : Type} [DecidableEq ε] [DecidableEq α] : DecidableEq (Except ε α) := fun a b =>
  match a, b with
  | .error e, .error f =>
    if h : e = f then isTrue (by rw [h]) else isFalse (fun hh => by cases hh; exact h rfl)
  | .error _, .ok _ => isFalse (fun hh => by cases hh)
  | .ok _, .error _ => isFalse (fun hh => by cases hh)
  | .ok x, .ok y =>
    if h : x = y then isTrue (by rw [h]) else isFalse (fun hh => by cases hh; exact h rfl)

/-- One OHLCV bar, mirroring the frozen dataclass `Candle` in `models.py`.
The structure is an immutable value (as is the `frozen=True, slots=True`
dataclass); validated construction is `Candle.mk?` below. -/
structure Candle where
  time : Int
  «open» : ℚ
  high : ℚ
  low : ℚ
  close : ℚ
  volume : ℚ := 0
deriving DecidableEq, Repr

/-- `Candle.__post_init__` (models.py lines 28-32): constructing a candle
with `high < low` or a non-positive `time` raises `ValueError`; otherwise
the candle holds exactly the given field values. -/
def Candle.mk? (time : Int) (o high low close volume : ℚ) : Except PyError Candle :=
  if high < low then
    .error (.valueError "high must be >= low")
  else if time ≤ 0 then
    .error (.valueError "time must be a positive unix timestamp")
  else
    .ok { time := time, «open» := o, high := high, low := low, close := close, volume := volume }

/-! ## Symbol patterns (`registry.py` regexes, shared with the providers) -/

/-- `[A-Z]` character class. -/
def isUpperAlpha (c : Char) : Bool := 'A' ≤ c && c ≤ 'Z'

/-- `[A-Z0-9]` character class. -/
def isUpperAlnum (c : Char) : Bool := isUpperAlpha c || ('0' ≤ c && c ≤ '9')

/-- `symbol.upper()` as a character list. -/
def upperChars (s : String) : List Char := s.data.map Char.toUpper

/-- The crypto quote-currency suffixes of `_CRYPTO_RE`. -/
def cryptoQuotes : List (List Char) :=
  [String.data "USDT", String.data "USDC", String.data "BTC",
   String.data "ETH", String.data "BNB", String.data "BUSD", String.data "FDUSD"]

/-- `_CRYPTO_RE = ^[A-Z]{2,}(USDT|USDC|BTC|ETH|BNB|BUSD|FDUSD)$`:
the string is uppercase letters only and some quote suffix leaves a base of
at least two letters. -/
def matchCrypto (s : List Char) : Bool :=
  s.all isUpperAlpha &&
    cryptoQuotes.any (fun q => q.isSuffixOf s && decide (q.length + 2 ≤ s.length))

/-- `_STOCK_RE = ^(\^[A-Z]+|[A-Z]{1,5})$`. -/
def matchStock (s : List Char) : Bool :=
  match s with
  | '^' :: rest => !rest.isEmpty && rest.all isUpperAlpha
  | _ => decide (1 ≤ s.length) && decide (s.length ≤ 5) && s.all isUpperAlpha

/-- `^[A-Z]{1,5}$` — Tiingo's own stricter stock pattern (tiingo.py). -/
def matchPlainStock (s : List Char) : Bool :=
  decide (1 ≤ s.length) && decide (s.length ≤ 5) && s.all isUpperAlpha

/-- `_INTL_STOCK_RE = ^[A-Z0-9]{1,7}\.[A-Z]{1,3}$`. -/
def matchIntl (s : List Char) : Bool :=
  match s.splitOn '.' with
  | [pre, suf] =>
      decide (1 ≤ pre.length) && decide (pre.length ≤ 7) && pre.all isUpperAlnum &&
      decide (1 ≤ suf.length) && decide (suf.length ≤ 3) && suf.all isUpperAlpha
  | _ => false

/-- `_FOREX_RE = ^[A-Z]{6}$`. -/
def matchForex (s : List Char) : Bool :=
  decide (s.length = 6) && s.all isUpperAlpha

/-! ## Asset classes and routing (`registry.py`) -/

/-- The spec's `AssetClass` enumeration (§3). -/
inductive AssetClass where
  | Crypto
  | Stock
  | InternationalStock
  | Forex
  | Unknown
deriving DecidableEq, Repr

/-- The four concrete providers, in the roles named by the spec:
crypto-exchange = Binance, general-market = yfinance, daily-bar = Tiingo,
keyed-candle = Finnhub. -/
inductive ProviderId where
  | binance
  | yfinance
  | tiingo
  | finnhub
deriving DecidableEq, Repr

/-- The SymbolClassifier of spec §4.1: ordered pattern tests,
first match wins, applied to the uppercased symbol. -/
def classify (symbol : String) : AssetClass :=
  let up := upperChars symbol
  if matchCrypto up then .Crypto
  else if matchStock up then .Stock
  else if matchIntl up then .InternationalStock
  else if matchForex up then .Forex
  else .Unknown

/-- The routing table of spec §4.2, class by class. -/
def chainOf : AssetClass → List ProviderId
  | .Crypto => [.binance, .yfinance]
  | .Stock => [.yfinance, .tiingo, .finnhub]
  | .InternationalStock => [.yfinance, .finnhub]
  | .Forex => [.yfinance, .finnhub]
  | .Unknown => [.binance, .yfinance, .tiingo, .finnhub]

/-- `pick` (registry.py lines 61-88): the ordered provider chain for a
symbol, chosen by the first matching pattern on the uppercased symbol. -/
def pick (symbol : String) : List ProviderId :=
  let up := upperChars symbol
  if matchCrypto up then [.binance, .yfinance]
  else if matchStock up then [.yfinance, .tiingo, .finnhub]
  else if matchIntl up then [.yfinance, .finnhub]
  else if matchForex up then [.yfinance, .finnhub]
  else [.binance, .yfinance, .tiingo, .finnhub]

/-! ## Orchestrator (`registry.py` `fetch`, lines 91-111) -/

/-- What the orchestrator requires of a provider: the `supports` predicate
and the `fetch` coroutine (whose outcome — data, absence, or a raised
error — is a value of `Except`). -/
structure Provider where
  supports : String → Bool
  fetch : String → String → Nat → Except PyError (Option (List Candle))

/-- The orchestrator loop of `registry.fetch`: walk the chain in order,
skip providers whose `supports` is false, return the first present and
non-empty result (Python truthiness of `result`), propagate a raised
error, and return `None` when the chain is exhausted. -/
def fetchChain (chain : List Provider) (symbol interval : String) (limit : Nat) :
    Except PyError (Option (List Candle)) :=
  match chain with
  | [] => .ok none
  | p :: rest =>
    if p.supports symbol then
      match p.fetch symbol interval limit with
      | .error e => .error e
      | .ok none => fetchChain rest symbol interval limit
      | .ok (some l) =>
        if l.isEmpty then fetchChain rest symbol interval limit
        else .ok (some l)
    else fetchChain rest symbol interval limit

/-- A provider that does not win its turn in the chain: it is skipped by
`supports`, or its fetch reports absence, or its fetch reports an empty
list. -/
def providerYields (p : Provider) (symbol interval : String) (limit : Nat) : Prop :=
  p.supports symbol = false ∨
    p.fetch symbol interval limit = .ok none ∨
    p.fetch symbol interval limit = .ok (some [])

/-! ## Binance provider (`providers/binance.py`) -/

/-- One raw kline row from the Binance JSON response, positions 0-5.
`none` marks a value on which the Python `int(...)`/`float(...)` conversion
(or the index access) would raise. -/
structure BinanceRow where
  openTimeMs : Option Int
  o : Option ℚ
  h : Option ℚ
  l : Option ℚ
  c : Option ℚ
  v : Option ℚ
deriving DecidableEq, Repr

/-- The candle built from one Binance row (binance.py lines 72-82):
`time = int(row[0]) // 1000` (Python floor division), no per-row exception
handling — a bad field or an invalid candle raises. -/
def parseBinanceRow (r : BinanceRow) : Except PyError Candle :=
  match r.openTimeMs, r.o, r.h, r.l, r.c, r.v with
  | some t, some o, some h, some l, some c, some v =>
      Candle.mk? (Int.fdiv t 1000) o h l c v
  | _, _, _, _, _, _ => .error (.valueError "invalid kline field")

/-- The list comprehension over all rows: evaluated in order, the first
raised exception aborts the whole batch. -/
def binanceParseAll : List BinanceRow → Except PyError (List Candle)
  | [] => .ok []
  | r :: rs => do
    let c ← parseBinanceRow r
    let cs ← binanceParseAll rs
    return c :: cs

/-- `_VALID_INTERVALS` (binance.py). -/
def binanceIntervals : List String :=
  ["1m", "3m", "5m", "15m", "30m", "1h", "2h", "4h", "6h", "8h", "12h",
   "1d", "3d", "1w", "1M"]

/-- Python `str.strip()`: drop leading and trailing whitespace. -/
def pyStrip (s : List Char) : List Char :=
  ((s.dropWhile Char.isWhitespace).reverse.dropWhile Char.isWhitespace).reverse

/-- `_normalise` (binance.py): uppercase, drop `/` and `-`, strip. -/
def binNormalise (symbol : String) : List Char :=
  pyStrip (((upperChars symbol).filter (fun c => c ≠ '/' && c ≠ '-')))

/-! ## yfinance provider (`providers/yfinance.py`) -/

/-- One row of the downloaded dataframe: the index timestamp (always an
integer number of seconds after `int(ts.timestamp())`) and the OHLCV
columns, `none` when missing or non-numeric. -/
structure YfRow where
  ts : Int
  o : Option ℚ
  h : Option ℚ
  l : Option ℚ
  c : Option ℚ
  v : Option ℚ
deriving DecidableEq, Repr

/-- One yfinance row → candle (yfinance.py lines 108-121): a missing
column (`KeyError`) or an invalid candle (`ValueError`) is caught and the
row skipped; the volume defaults to 0 via `row.get("Volume", 0.0) or 0.0`. -/
def parseYfRow (r : YfRow) : Option Candle :=
  match r.o, r.h, r.l, r.c with
  | some o, some h, some l, some c =>
      (Candle.mk? r.ts o h l c (r.v.getD 0)).toOption
  | _, _, _, _ => none

/-- The `for ... try ... except ... continue` accumulation loop of
yfinance's fetch, in iteration order. -/
def yfCollect : List YfRow → List Candle
  | [] => []
  | r :: rs =>
    match parseYfRow r with
    | some c => c :: yfCollect rs
    | none => yfCollect rs

/-- `_INTERVAL_MAP` (yfinance.py). -/
def yfIntervalMap : String → Option String
  | "1m" => some "1m"
  | "5m" => some "5m"
  | "15m" => some "15m"
  | "1h" => some "1h"
  | "1d" => some "1d"
  | "1w" => some "1wk"
  | _ => none

/-- The last `n` elements of a list (`df.tail(n)`; `tail(0)` is empty). -/
def takeLast (n : Nat) (l : List α) : List α := l.drop (l.length - n)

/-- A Python slice `l[-n:]` for a non-negative `n`: for `n = 0` this is the
WHOLE list (`l[-0:] = l[0:]`), otherwise the last `n` elements. -/
def sliceLastPy (n : Nat) (l : List α) : List α :=
  if n = 0 then l else takeLast n l

/-! ## Tiingo provider (`providers/tiingo.py`) -/

/-- One row of the Tiingo JSON response. `date` is the
`int(datetime.fromisoformat(row["date"]).timestamp())` value, `none` when
the field is missing or unparseable; prices carry the `adj*` and plain
variants separately, `none` when missing or non-numeric. -/
structure TiingoRow where
  date : Option Int
  adjOpen : Option ℚ
  rawOpen : Option ℚ
  adjHigh : Option ℚ
  rawHigh : Option ℚ
  adjLow : Option ℚ
  rawLow : Option ℚ
  adjClose : Option ℚ
  rawClose : Option ℚ
  adjVolume : Option ℚ
  rawVolume : Option ℚ
deriving DecidableEq, Repr

/-- Python truthiness filter on an optional number: `0.0` and absence are
falsy. -/
def pyTruthy (v : Option ℚ) : Option ℚ :=
  match v with
  | some x => if x = 0 then none else some x
  | none => none

/-- `row.get("adjX") or row["X"]`: the adjusted value when truthy,
otherwise the plain field (whose absence raises `KeyError`). -/
def tiingoPrice (adj raw : Option ℚ) : Option ℚ :=
  (pyTruthy adj).orElse (fun _ => raw)

/-- `row.get("adjVolume") or row.get("volume") or 0.0`. -/
def tiingoVolume (adj raw : Option ℚ) : ℚ :=
  ((pyTruthy adj).orElse (fun _ => pyTruthy raw)).getD 0

/-- One Tiingo row → candle (tiingo.py lines 82-96): `KeyError` and
`ValueError` are caught and the row skipped. -/
def parseTiingoRow (r : TiingoRow) : Option Candle :=
  match r.date with
  | none => none
  | some ts =>
    match tiingoPrice r.adjOpen r.rawOpen, tiingoPrice r.adjHigh r.rawHigh,
          tiingoPrice r.adjLow r.rawLow, tiingoPrice r.adjClose r.rawClose with
    | some o, some h, some l, some c =>
        (Candle.mk? ts o h l c (tiingoVolume r.adjVolume r.rawVolume)).toOption
    | _, _, _, _ => none

/-- The accumulation loop of Tiingo's fetch, in iteration order. -/
def tiingoCollect : List TiingoRow → List Candle
  | [] => []
  | r :: rs =>
    match parseTiingoRow r with
    | some c => c :: tiingoCollect rs
    | none => tiingoCollect rs

/-- `_RESAMPLE` (tiingo.py): the intervals Tiingo honours. -/
def tiingoResample : String → Option String
  | "1d" => some "daily"
  | "1w" => some "weekly"
  | _ => none

/-! ## Finnhub provider (`providers/finnhub.py`) -/

/-- A Finnhub candle response: the parallel arrays of the JSON payload
(`raw.get("t", [])` etc., each element `none` when non-numeric), and the
optional `v` array (missing key defaults to zeros). -/
structure FinnhubRaw where
  t : List (Option Int)
  o : List (Option ℚ)
  h : List (Option ℚ)
  l : List (Option ℚ)
  c : List (Option ℚ)
  v : Option (List (Option ℚ))
deriving DecidableEq, Repr

/-- `xs[i]` for a parallel array: `none` on `IndexError` or on a value the
numeric conversion rejects. -/
def idx? (l : List (Option α)) (i : Nat) : Option α :=
  (l.get? i).bind id

/-- `raw.get("v", [0.0] * len(timestamps))`. -/
def finnhubVolumes (raw : FinnhubRaw) : List (Option ℚ) :=
  raw.v.getD (List.replicate raw.t.length (some 0))

/-- `float(volumes[i]) if i < len(volumes) else 0.0`. -/
def finnhubVolAt (vols : List (Option ℚ)) (i : Nat) : Option ℚ :=
  if i < vols.length then idx? vols i else some 0

/-- Loop body of `_parse` at index `i` (finnhub.py lines 171-184):
`IndexError`, `KeyError` and `ValueError` are caught and the index
skipped. -/
def parseFinnhubAt (raw : FinnhubRaw) (i : Nat) : Option Candle :=
  match idx? raw.t i, idx? raw.o i, idx? raw.h i, idx? raw.l i, idx? raw.c i,
        finnhubVolAt (finnhubVolumes raw) i with
  | some ts, some o, some h, some l, some c, some v =>
      (Candle.mk? ts o h l c v).toOption
  | _, _, _, _, _, _ => none

/-- The `for i in range(...)` loop of `_parse`, started at `i` with `k`
iterations left. -/
def finnhubLoop (raw : FinnhubRaw) (i : Nat) : Nat → List Candle
  | 0 => []
  | k + 1 =>
    match parseFinnhubAt raw i with
    | some c => c :: finnhubLoop raw (i + 1) k
    | none => finnhubLoop raw (i + 1) k

/-- `FinnhubProvider._parse` (finnhub.py lines 157-186): loop over all
indices of `t`, then `candles[-limit:] or None`. -/
def finnhubParse (raw? : Option FinnhubRaw) (limit : Nat) : Option (List Candle) :=
  match raw? with
  | none => none
  | some raw =>
    let candles := finnhubLoop raw 0 raw.t.length
    let res := sliceLastPy limit candles
    if res.isEmpty then none else some res

/-- `_RESOLUTION_MAP` (finnhub.py). -/
def finnhubResolution : String → Option String
  | "1m" => some "1"
  | "5m" => some "5"
  | "15m" => some "15"
  | "30m" => some "30"
  | "1h" => some "60"
  | "1d" => some "D"
  | "1w" => some "W"
  | _ => none

/-! ## Environment, upstream world, and the concrete providers -/

/-- The credential environment variables, read at fetch time
(`os.getenv`). `none` models an unset variable. -/
structure Env where
  tiingoKey : Option String
  finnhubKey : Option String

/-- Python falsiness of `os.getenv(...)`: unset, or set to the empty
string. -/
def keyMissing : Option String → Bool
  | none => true
  | some s => s.isEmpty

/-- The raw upstream responses each provider would decode on this request:
the Binance HTTP status and kline rows, the yfinance dataframe
(`none` when `_download` returned `None`), the Tiingo row list
(`none` when `_download` returned `None`), and the Finnhub candle payloads
for the stock and forex endpoints (`none` when the client call failed or
`s != "ok"`). -/
structure World where
  binanceStatus : Nat
  binanceData : List BinanceRow
  yfData : Option (List YfRow)
  tiingoData : Option (List TiingoRow)
  finnhubStock : Option FinnhubRaw
  finnhubForex : Option FinnhubRaw

/-- `BinanceProvider.fetch` (binance.py lines 44-82). The request carries
`limit=min(limit, 1000)` upstream, but the decoded rows are returned
without any local truncation. -/
def binanceFetch (w : World) (symbol interval : String) (limit : Nat) :
    Except PyError (Option (List Candle)) :=
  if !binanceIntervals.contains interval then .ok none
  else if w.binanceStatus ≠ 200 then .ok none
  else if w.binanceData.isEmpty then .ok none
  else (binanceParseAll w.binanceData).map some

/-- `YFinanceProvider.fetch` (yfinance.py lines 88-123):
unsupported interval → absence; failed or empty download → absence;
otherwise `df.tail(limit)` rows collected, `candles or None`. -/
def yfFetch (w : World) (symbol interval : String) (limit : Nat) :
    Except PyError (Option (List Candle)) :=
  match yfIntervalMap interval with
  | none => .ok none
  | some _ =>
    match w.yfData with
    | none => .ok none
    | some df =>
      if df.isEmpty then .ok none
      else
        let candles := yfCollect (takeLast limit df)
        if candles.isEmpty then .ok none else .ok (some candles)

/-- `TiingoProvider.fetch` (tiingo.py lines 54-98): unsupported interval →
absence BEFORE the key check; missing key → `RuntimeError`; then
`rows[-limit:]` collected, `candles or None`. -/
def tiingoFetch (env : Env) (w : World) (symbol interval : String) (limit : Nat) :
    Except PyError (Option (List Candle)) :=
  match tiingoResample interval with
  | none => .ok none
  | some _ =>
    if keyMissing env.tiingoKey then
      .error (.runtimeError "TIINGO_API_KEY environment variable is not set")
    else
      match w.tiingoData with
      | none => .ok none
      | some rows =>
        if rows.isEmpty then .ok none
        else
          let candles := tiingoCollect (sliceLastPy limit rows)
          if candles.isEmpty then .ok none else .ok (some candles)

/-- `FinnhubProvider.fetch` (finnhub.py lines 82-114): unsupported
interval → absence BEFORE the key check; missing key → `RuntimeError`;
forex-shaped symbols use the forex endpoint, others the stock endpoint;
the payload goes through `_parse`. -/
def finnhubFetch (env : Env) (w : World) (symbol interval : String) (limit : Nat) :
    Except PyError (Option (List Candle)) :=
  match finnhubResolution interval with
  | none => .ok none
  | some _ =>
    if keyMissing env.finnhubKey then
      .error (.runtimeError "FINNHUB_API_KEY environment variable is not set")
    else
      let raw := if matchForex (upperChars symbol) then w.finnhubForex else w.finnhubStock
      .ok (finnhubParse raw limit)

/-- `BinanceProvider.supports`. -/
def binanceSupports (symbol : String) : Bool :=
  matchCrypto (binNormalise symbol)

/-- `YFinanceProvider.supports`. -/
def yfSupports (symbol : String) : Bool :=
  matchCrypto (upperChars symbol) || matchForex (upperChars symbol) ||
    matchStock (upperChars symbol) || matchIntl (upperChars symbol)

/-- `TiingoProvider.supports`. -/
def tiingoSupports (symbol : String) : Bool :=
  matchPlainStock (upperChars symbol) || matchIntl (upperChars symbol)

/-- `FinnhubProvider.supports`. -/
def finnhubSupports (symbol : String) : Bool :=
  matchStock (upperChars symbol) || matchIntl (upperChars symbol) ||
    matchForex (upperChars symbol)

/-- The singleton provider instances, as the orchestrator sees them under
a given environment and upstream world. -/
def providerOf (env : Env) (w : World) : ProviderId → Provider
  | .binance => { supports := binanceSupports, fetch := binanceFetch w }
  | .yfinance => { supports := yfSupports, fetch := yfFetch w }
  | .tiingo => { supports := tiingoSupports, fetch := tiingoFetch env w }
  | .finnhub => { supports := finnhubSupports, fetch := finnhubFetch env w }

/-- `registry.fetch` with the concrete providers: walk the chain `pick`
selects for the symbol. -/
def registryFetch (env : Env) (w : World) (symbol interval : String) (limit : Nat) :
    Except PyError (Option (List Candle)) :=
  fetchChain ((pick symbol).map (providerOf env w)) symbol interval limit

/-! ## Derived time views of the upstream data -/

/-- The bar time a Binance row carries, after the ms→s conversion. -/
def binRowTime (r : BinanceRow) : Int := (r.openTimeMs.getD 0).fdiv 1000

/-- The bar time a Tiingo row carries. -/
def tiingoRowTime (r : TiingoRow) : Int := r.date.getD 0

/-- The timestamp array of a Finnhub payload. -/
def finnhubTimes (raw : FinnhubRaw) : List Int := raw.t.map (fun x => x.getD 0)

/-- Strictly increasing integer list, as a Boolean check. -/
def strictlyInc : List Int → Bool
  | [] => true
  | [_] => true
  | a :: b :: rest => decide (a < b) && strictlyInc (b :: rest)

/-- All upstream batches of a world are strictly increasing in (converted)
bar time. -/
def worldTimesOrdered (w : World) : Bool :=
  strictlyInc (w.binanceData.map binRowTime) &&
  (match w.yfData with
   | none => true
   | some df => strictlyInc (df.map YfRow.ts)) &&
  (match w.tiingoData with
   | none => true
   | some rows => strictlyInc (rows.map tiingoRowTime)) &&
  (match w.finnhubStock with
   | none => true
   | some raw => strictlyInc (finnhubTimes raw)) &&
  (match w.finnhubForex with
   | none => true
   | some raw => strictlyInc (finnhubTimes raw))

/-! ## Concrete data used by the witnesses and counterexamples -/

/-- A minimal upstream world: Binance answered 200 with no rows, every
other upstream returned nothing. -/
def emptyWorld : World :=
  { binanceStatus := 200, binanceData := [], yfData := none, tiingoData := none,
    finnhubStock := none, finnhubForex := none }

/-- No credential environment variable is set. -/
def noKeys : Env := { tiingoKey := none, finnhubKey := none }

/-- An environment where only the Tiingo key is set. -/
def tiingoEnv : Env := { tiingoKey := some "k", finnhubKey := none }

/-- A valid candle used by the orchestrator witnesses. -/
def witCandle : Candle := { time := 1, «open» := 1, high := 2, low := 1, close := 1, volume := 0 }

/-- A provider the orchestrator must skip: `supports` is false and its
fetch would raise if it were ever called. -/
def pSkip : Provider :=
  { supports := fun _ => false, fetch := fun _ _ _ => .error (.runtimeError "must not be called") }

/-- A supported provider that reports absence. -/
def pEmpty : Provider := { supports := fun _ => true, fetch := fun _ _ _ => .ok none }

/-- A supported provider that returns one candle. -/
def pWin : Provider := { supports := fun _ => true, fetch := fun _ _ _ => .ok (some [witCandle]) }

/-- A supported provider that raises. -/
def pRaise : Provider :=
  { supports := fun _ => true, fetch := fun _ _ _ => .error (.runtimeError "boom") }

/-- A well-formed Binance kline row (time 1000000 ms → 1000 s). -/
def binGoodRow : BinanceRow :=
  { openTimeMs := some 1000000, o := some 1, h := some 2, l := some 1, c := some 1, v := some 0 }

/-- A second well-formed Binance kline row (time 2000000 ms → 2000 s). -/
def binGoodRow2 : BinanceRow :=
  { openTimeMs := some 2000000, o := some 1, h := some 2, l := some 1, c := some 1, v := some 0 }

/-- A Binance kline row violating the candle invariant: `high < low`. -/
def binBadRow : BinanceRow :=
  { openTimeMs := some 3000000, o := some 1, h := some 1, l := some 2, c := some 1, v := some 0 }

/-- A world whose Binance upstream answers a valid row followed by an
invalid one. -/
def wBadRow : World := { emptyWorld with binanceData := [binGoodRow, binBadRow] }

/-- A world where the Binance upstream answers two valid rows, oldest
first. -/
def wTwoRows : World := { emptyWorld with binanceData := [binGoodRow, binGoodRow2] }

/-- A world whose Binance upstream answers two valid rows in REVERSED
time order (2000 s then 1000 s). -/
def wReversed : World := { emptyWorld with binanceData := [binGoodRow2, binGoodRow] }

/-- A well-formed Tiingo row (adjusted fields present). -/
def tiingoRowA : TiingoRow :=
  { date := some 100, adjOpen := some 1, rawOpen := none, adjHigh := some 2, rawHigh := none,
    adjLow := some 1, rawLow := none, adjClose := some 1, rawClose := none,
    adjVolume := some 3, rawVolume := none }

/-- A world where only the Tiingo upstream answers, with one row. -/
def wTiingoOne : World := { emptyWorld with tiingoData := some [tiingoRowA] }

/-- The two candles Binance decodes from `wTwoRows`. -/
def binTwoCandles : List Candle :=
  [{ time := 1000, «open» := 1, high := 2, low := 1, close := 1, volume := 0 },
   { time := 2000, «open» := 1, high := 2, low := 1, close := 1, volume := 0 }]

/-- The candle Tiingo decodes from `wTiingoOne`. -/
def tiingoOneCandle : List Candle :=
  [{ time := 100, «open» := 1, high := 2, low := 1, close := 1, volume := 3 }]

/-- The candles the orchestrator returns from `wReversed`, newest first. -/
def reversedCandles : List Candle :=
  [{ time := 2000, «open» := 1, high := 2, low := 1, close := 1, volume := 0 },
   { time := 1000, «open» := 1, high := 2, low := 1, close := 1, volume := 0 }]

/-- A yfinance row violating the candle invariant. -/
def yfBadRow : YfRow := { ts := 10, o := some 1, h := some 1, l := some 2, c := some 1, v := some 0 }

/-- A well-formed yfinance row. -/
def yfGoodRow : YfRow := { ts := 5, o := some 1, h := some 2, l := some 1, c := some 1, v := some 0 }

/-! ## Helper lemmas -/

theorem yfCollect_eq_filterMap :
    ∀ rows : List YfRow, yfCollect rows = rows.filterMap parseYfRow := by
  intro rows
  induction rows with
  | nil => rfl
  | cons r rs ih =>
    cases hp : parseYfRow r <;> simp [yfCollect, List.filterMap_cons, hp, ih]

theorem tiingoCollect_eq_filterMap :
    ∀ rows : List TiingoRow, tiingoCollect rows = rows.filterMap parseTiingoRow := by
  intro rows
  induction rows with
  | nil => rfl
  | cons r rs ih =>
    cases hp : parseTiingoRow r <;> simp [tiingoCollect, List.filterMap_cons, hp, ih]

theorem finnhubLoop_eq_filterMap (raw : FinnhubRaw) :
    ∀ (k i : Nat), finnhubLoop raw i k = (List.range' i k).filterMap (parseFinnhubAt raw) := by
  intro k
  induction k with
  | zero => intro i; rfl
  | succ n ih =>
    intro i
    cases hp : parseFinnhubAt raw i <;>
      simp [finnhubLoop, List.range'_succ, List.filterMap_cons, hp, ih]

theorem takeLast_length_le (n : Nat) (l : List α) : (takeLast n l).length ≤ n := by
  simp only [takeLast, List.length_drop]
  omega

theorem sliceLastPy_length_le {n : Nat} (hn : 1 ≤ n) (l : List α) :
    (sliceLastPy n l).length ≤ n := by
  unfold sliceLastPy
  rw [if_neg (by omega)]
  exact takeLast_length_le n l

theorem takeLast_sublist (n : Nat) (l : List α) : (takeLast n l).Sublist l :=
  List.drop_sublist _ _

theorem sliceLastPy_sublist (n : Nat) (l : List α) : (sliceLastPy n l).Sublist l := by
  unfold sliceLastPy
  split
  · exact List.Sublist.refl l
  · exact takeLast_sublist n l

theorem fetchChain_ok_some :
    ∀ (chain : List Provider) (s i : String) (lim : Nat) (l : List Candle),
      fetchChain chain s i lim = .ok (some l) →
      ∃ p ∈ chain, p.fetch s i lim = .ok (some l) ∧ l ≠ [] := by
  intro chain s i lim l h
  induction chain with
  | nil => cases h
  | cons p rest ih =>
    rw [fetchChain] at h
    by_cases hs : p.supports s = true
    · rw [if_pos hs] at h
      cases hf : p.fetch s i lim with
      | error e => rw [hf] at h; cases h
      | ok r =>
        rw [hf] at h
        cases r with
        | none =>
          dsimp only at h
          obtain ⟨q, hq, hqa, hqb⟩ := ih h
          exact ⟨q, List.mem_cons_of_mem p hq, hqa, hqb⟩
        | some l' =>
          dsimp only at h
          by_cases he : l'.isEmpty = true
          · rw [if_pos he] at h
            obtain ⟨q, hq, hqa, hqb⟩ := ih h
            exact ⟨q, List.mem_cons_of_mem p hq, hqa, hqb⟩
          · rw [if_neg he] at h
            cases h
            exact ⟨p, List.mem_cons_self p rest, hf, fun hnil => he (by simp [hnil])⟩
    · rw [if_neg hs] at h
      obtain ⟨q, hq, hqa, hqb⟩ := ih h
      exact ⟨q, List.mem_cons_of_mem p hq, hqa, hqb⟩

theorem binanceParseAll_ok_length :
    ∀ (rows : List BinanceRow) (cs : List Candle),
      binanceParseAll rows = .ok cs → cs.length = rows.length := by
  intro rows
  induction rows with
  | nil => intro cs h; cases h; rfl
  | cons r rs ih =>
    intro cs h
    unfold binanceParseAll at h
    cases hp : parseBinanceRow r with
    | error e => rw [hp] at h; cases h
    | ok c =>
      rw [hp] at h
      cases ha : binanceParseAll rs with
      | error e => rw [ha] at h; cases h
      | ok cs' =>
        rw [ha] at h
        cases h
        simp [ih cs' ha]

theorem binanceFetch_ok_length {w : World} {s i : String} {lim : Nat} {l : List Candle}
    (h : binanceFetch w s i lim = .ok (some l)) : l.length = w.binanceData.length := by
  unfold binanceFetch at h
  split at h
  · cases h
  · split at h
    · cases h
    · split at h
      · cases h
      · cases ha : binanceParseAll w.binanceData with
        | error e => rw [ha] at h; cases h
        | ok cs =>
          rw [ha] at h
          cases h
          exact binanceParseAll_ok_length _ _ ha

theorem yfFetch_ok_length {w : World} {s i : String} {lim : Nat} {l : List Candle}
    (h : yfFetch w s i lim = .ok (some l)) : l.length ≤ lim := by
  unfold yfFetch at h
  cases hi : yfIntervalMap i with
  | none => rw [hi] at h; cases h
  | some yfi =>
    rw [hi] at h
    dsimp only at h
    cases hd : w.yfData with
    | none => rw [hd] at h; cases h
    | some df =>
      rw [hd] at h
      dsimp only at h
      by_cases hdf : df.isEmpty = true
      · rw [if_pos hdf] at h; cases h
      · rw [if_neg hdf] at h
        by_cases hc : (yfCollect (takeLast lim df)).isEmpty = true
        · rw [if_pos hc] at h; cases h
        · rw [if_neg hc] at h
          cases h
          calc (yfCollect (takeLast lim df)).length
              ≤ (takeLast lim df).length := by
                rw [yfCollect_eq_filterMap]; exact List.length_filterMap_le _ _
            _ ≤ lim := takeLast_length_le lim df

theorem tiingoFetch_ok_length {env : Env} {w : World} {s i : String} {lim : Nat}
    {l : List Candle} (hpos : 1 ≤ lim)
    (h : tiingoFetch env w s i lim = .ok (some l)) : l.length ≤ lim := by
  unfold tiingoFetch at h
  cases hi : tiingoResample i with
  | none => rw [hi] at h; cases h
  | some r =>
    rw [hi] at h
    dsimp only at h
    by_cases hk : keyMissing env.tiingoKey = true
    · rw [if_pos hk] at h; cases h
    · rw [if_neg hk] at h
      cases hd : w.tiingoData with
      | none => rw [hd] at h; cases h
      | some rows =>
        rw [hd] at h
        dsimp only at h
        by_cases hre : rows.isEmpty = true
        · rw [if_pos hre] at h; cases h
        · rw [if_neg hre] at h
          by_cases hc : (tiingoCollect (sliceLastPy lim rows)).isEmpty = true
          · rw [if_pos hc] at h; cases h
          · rw [if_neg hc] at h
            cases h
            calc (tiingoCollect (sliceLastPy lim rows)).length
                ≤ (sliceLastPy lim rows).length := by
                  rw [tiingoCollect_eq_filterMap]; exact List.length_filterMap_le _ _
              _ ≤ lim := sliceLastPy_length_le hpos rows

theorem finnhubParse_some_length {raw? : Option FinnhubRaw} {lim : Nat} {l : List Candle}
    (hpos : 1 ≤ lim) (h : finnhubParse raw? lim = some l) : l.length ≤ lim := by
  unfold finnhubParse at h
  cases raw? with
  | none => cases h
  | some raw =>
    dsimp only at h
    by_cases he : (sliceLastPy lim (finnhubLoop raw 0 raw.t.length)).isEmpty = true
    · rw [if_pos he] at h; cases h
    · rw [if_neg he] at h
      cases h
      exact sliceLastPy_length_le hpos _

theorem finnhubFetch_ok_length {env : Env} {w : World} {s i : String} {lim : Nat}
    {l : List Candle} (hpos : 1 ≤ lim)
    (h : finnhubFetch env w s i lim = .ok (some l)) : l.length ≤ lim := by
  unfold finnhubFetch at h
  cases hi : finnhubResolution i with
  | none => rw [hi] at h; cases h
  | some r =>
    rw [hi] at h
    dsimp only at h
    by_cases hk : keyMissing env.finnhubKey = true
    · rw [if_pos hk] at h; cases h
    · rw [if_neg hk] at h
      injection h with h
      exact finnhubParse_some_length hpos h

theorem strictlyInc_pairwise : ∀ {l : List Int}, strictlyInc l = true →
    l.Pairwise (· < ·) := by
  have hchain : ∀ l : List Int, strictlyInc l = true → List.Chain' (· < ·) l := by
    intro l
    induction l with
    | nil => intro _; exact List.chain'_nil
    | cons a rest ih =>
      cases rest with
      | nil => intro _; simp
      | cons b rest2 =>
        intro h
        rw [strictlyInc, Bool.and_eq_true, decide_eq_true_eq] at h
        exact List.chain'_cons.mpr ⟨h.1, ih h.2⟩
  intro l h
  exact List.chain'_iff_pairwise.mp (hchain l h)

theorem Candle.mk?_ok {t : Int} {o hi lo cl vo : ℚ} {cd : Candle}
    (hcd : Candle.mk? t o hi lo cl vo = .ok cd) :
    cd = { time := t, «open» := o, high := hi, low := lo, close := cl, volume := vo } := by
  unfold Candle.mk? at hcd
  split at hcd
  · cases hcd
  · split at hcd
    · cases hcd
    · cases hcd; rfl

theorem Candle.mk?_toOption_eq {t : Int} {o hi lo cl vo : ℚ} {cd : Candle}
    (h : (Candle.mk? t o hi lo cl vo).toOption = some cd) :
    cd = { time := t, «open» := o, high := hi, low := lo, close := cl, volume := vo } := by
  cases hm : Candle.mk? t o hi lo cl vo with
  | error e => rw [hm] at h; simp [Except.toOption] at h
  | ok cd' =>
    rw [hm] at h
    simp [Except.toOption] at h
    rw [← h]
    exact Candle.mk?_ok hm

theorem parseBinanceRow_time {r : BinanceRow} {c : Candle}
    (h : parseBinanceRow r = .ok c) : c.time = binRowTime r := by
  unfold parseBinanceRow at h
  split at h
  · rw [Candle.mk?_ok h]
    simp [binRowTime, *]
  · cases h

theorem binanceParseAll_times :
    ∀ (rows : List BinanceRow) (cs : List Candle), binanceParseAll rows = .ok cs →
      cs.map Candle.time = rows.map binRowTime := by
  intro rows
  induction rows with
  | nil => intro cs h; cases h; rfl
  | cons r rs ih =>
    intro cs h
    unfold binanceParseAll at h
    cases hp : parseBinanceRow r with
    | error e => rw [hp] at h; cases h
    | ok c =>
      rw [hp] at h
      cases ha : binanceParseAll rs with
      | error e => rw [ha] at h; cases h
      | ok cs' =>
        rw [ha] at h
        cases h
        simp [parseBinanceRow_time hp, ih cs' ha]

theorem parseYfRow_time {r : YfRow} {c : Candle} (h : parseYfRow r = some c) :
    c.time = r.ts := by
  unfold parseYfRow at h
  split at h
  · rw [Candle.mk?_toOption_eq h]
  · cases h

theorem parseTiingoRow_time {r : TiingoRow} {c : Candle} (h : parseTiingoRow r = some c) :
    c.time = tiingoRowTime r := by
  unfold parseTiingoRow at h
  cases hd : r.date with
  | none => rw [hd] at h; cases h
  | some ts =>
    rw [hd] at h
    dsimp only at h
    split at h
    · rw [Candle.mk?_toOption_eq h]
      simp [tiingoRowTime, hd]
    · cases h

theorem parseFinnhubAt_time {raw : FinnhubRaw} {i : Nat} {c : Candle}
    (h : parseFinnhubAt raw i = some c) : c.time = (idx? raw.t i).getD 0 := by
  unfold parseFinnhubAt at h
  split at h
  · rw [Candle.mk?_toOption_eq h]
    simp [*]
  · cases h

theorem filterMap_map_sublist {α β γ : Type} (f : α → Option β) (gfb : β → γ) (g : α → γ)
    (hf : ∀ a b, f a = some b → gfb b = g a) :
    ∀ l : List α, ((l.filterMap f).map gfb).Sublist (l.map g) := by
  intro l
  induction l with
  | nil => simp
  | cons a as ih =>
    cases hfa : f a with
    | none =>
      simp only [List.filterMap_cons, hfa, List.map_cons]
      exact ih.cons (g a)
    | some b =>
      simp only [List.filterMap_cons, hfa, List.map_cons]
      rw [hf a b hfa]
      exact ih.cons₂ (g a)

theorem range_idx_map (l : List (Option Int)) :
    (List.range l.length).map (fun j => (idx? l j).getD 0) = l.map (fun x => x.getD 0) := by
  induction l with
  | nil => rfl
  | cons a as ih =>
    simp only [List.length_cons, List.range_succ_eq_map, List.map_cons, List.map_map]
    have hcomp : ((fun j => (idx? (a :: as) j).getD 0) ∘ Nat.succ) =
        (fun j => (idx? as j).getD 0) := by
      funext j; rfl
    rw [hcomp, ih]
    rfl

theorem binanceFetch_ok_sorted {w : World} {s i : String} {lim : Nat} {l : List Candle}
    (hw : strictlyInc (w.binanceData.map binRowTime) = true)
    (h : binanceFetch w s i lim = .ok (some l)) :
    (l.map Candle.time).Pairwise (· < ·) := by
  unfold binanceFetch at h
  split at h
  · cases h
  · split at h
    · cases h
    · split at h
      · cases h
      · cases ha : binanceParseAll w.binanceData with
        | error e => rw [ha] at h; cases h
        | ok cs =>
          rw [ha] at h
          cases h
          rw [binanceParseAll_times _ _ ha]
          exact strictlyInc_pairwise hw

theorem yfFetch_ok_sorted {w : World} {s i : String} {lim : Nat} {l : List Candle}
    (hw : ∀ df, w.yfData = some df → strictlyInc (df.map YfRow.ts) = true)
    (h : yfFetch w s i lim = .ok (some l)) :
    (l.map Candle.time).Pairwise (· < ·) := by
  unfold yfFetch at h
  cases hi : yfIntervalMap i with
  | none => rw [hi] at h; cases h
  | some yfi =>
    rw [hi] at h
    dsimp only at h
    cases hd : w.yfData with
    | none => rw [hd] at h; cases h
    | some df =>
      rw [hd] at h
      dsimp only at h
      by_cases hdf : df.isEmpty = true
      · rw [if_pos hdf] at h; cases h
      · rw [if_neg hdf] at h
        by_cases hc : (yfCollect (takeLast lim df)).isEmpty = true
        · rw [if_pos hc] at h; cases h
        · rw [if_neg hc] at h
          cases h
          rw [yfCollect_eq_filterMap]
          have hsub1 := filterMap_map_sublist parseYfRow Candle.time YfRow.ts
            (fun r c hc2 => parseYfRow_time hc2) (takeLast lim df)
          have hsub2 : ((takeLast lim df).map YfRow.ts).Sublist (df.map YfRow.ts) :=
            (takeLast_sublist lim df).map _
          exact (strictlyInc_pairwise (hw df hd)).sublist (hsub1.trans hsub2)

theorem tiingoFetch_ok_sorted {env : Env} {w : World} {s i : String} {lim : Nat}
    {l : List Candle}
    (hw : ∀ rows, w.tiingoData = some rows → strictlyInc (rows.map tiingoRowTime) = true)
    (h : tiingoFetch env w s i lim = .ok (some l)) :
    (l.map Candle.time).Pairwise (· < ·) := by
  unfold tiingoFetch at h
  cases hi : tiingoResample i with
  | none => rw [hi] at h; cases h
  | some r =>
    rw [hi] at h
    dsimp only at h
    by_cases hk : keyMissing env.tiingoKey = true
    · rw [if_pos hk] at h; cases h
    · rw [if_neg hk] at h
      cases hd : w.tiingoData with
      | none => rw [hd] at h; cases h
      | some rows =>
        rw [hd] at h
        dsimp only at h
        by_cases hre : rows.isEmpty = true
        · rw [if_pos hre] at h; cases h
        · rw [if_neg hre] at h
          by_cases hc : (tiingoCollect (sliceLastPy lim rows)).isEmpty = true
          · rw [if_pos hc] at h; cases h
          · rw [if_neg hc] at h
            cases h
            rw [tiingoCollect_eq_filterMap]
            have hsub1 := filterMap_map_sublist parseTiingoRow Candle.time tiingoRowTime
              (fun r2 c hc2 => parseTiingoRow_time hc2) (sliceLastPy lim rows)
            have hsub2 : ((sliceLastPy lim rows).map tiingoRowTime).Sublist
                (rows.map tiingoRowTime) := (sliceLastPy_sublist lim rows).map _
            exact (strictlyInc_pairwise (hw rows hd)).sublist (hsub1.trans hsub2)

theorem finnhubParse_some_sorted {raw : FinnhubRaw} {lim : Nat} {l : List Candle}
    (hw : strictlyInc (finnhubTimes raw) = true)
    (h : finnhubParse (some raw) lim = some l) :
    (l.map Candle.time).Pairwise (· < ·) := by
  unfold finnhubParse at h
  dsimp only at h
  by_cases he : (sliceLastPy lim (finnhubLoop raw 0 raw.t.length)).isEmpty = true
  · rw [if_pos he] at h; cases h
  · rw [if_neg he] at h
    cases h
    have hsub1 : ((sliceLastPy lim (finnhubLoop raw 0 raw.t.length)).map Candle.time).Sublist
        ((finnhubLoop raw 0 raw.t.length).map Candle.time) :=
      (sliceLastPy_sublist _ _).map _
    have hsub2 : ((finnhubLoop raw 0 raw.t.length).map Candle.time).Sublist
        (finnhubTimes raw) := by
      rw [finnhubLoop_eq_filterMap, ← List.range_eq_range', finnhubTimes, ← range_idx_map raw.t]
      exact filterMap_map_sublist _ _ _ (fun j c hc => parseFinnhubAt_time hc) _
    exact (strictlyInc_pairwise hw).sublist (hsub1.trans hsub2)

theorem finnhubFetch_ok_sorted {env : Env} {w : World} {s i : String} {lim : Nat}
    {l : List Candle}
    (hw1 : ∀ raw, w.finnhubStock = some raw → strictlyInc (finnhubTimes raw) = true)
    (hw2 : ∀ raw, w.finnhubForex = some raw → strictlyInc (finnhubTimes raw) = true)
    (h : finnhubFetch env w s i lim = .ok (some l)) :
    (l.map Candle.time).Pairwise (· < ·) := by
  unfold finnhubFetch at h
  cases hi : finnhubResolution i with
  | none => rw [hi] at h; cases h
  | some r =>
    rw [hi] at h
    dsimp only at h
    by_cases hk : keyMissing env.finnhubKey = true
    · rw [if_pos hk] at h; cases h
    · rw [if_neg hk] at h
      injection h with h
      by_cases hfx : matchForex (upperChars s) = true
      · rw [if_pos hfx] at h
        cases hr : w.finnhubForex with
        | none => rw [hr] at h; cases h
        | some raw => rw [hr] at h; exact finnhubParse_some_sorted (hw2 raw hr) h
      · rw [if_neg hfx] at h
        cases hr : w.finnhubStock with
        | none => rw [hr] at h; cases h
        | some raw => rw [hr] at h; exact finnhubParse_some_sorted (hw1 raw hr) h

/-! ## Claim theorems -/

/-- C1: for every symbol, interval, and limit, the orchestrator's fetch
walks the provider chain in order — a provider whose `supports` is false
is skipped without its fetch influencing the outcome, the first provider
whose fetch returns a present and non-empty candle list wins immediately
(later providers never consulted: they do not occur in the conclusion),
and if every provider is skipped or returns absent/empty the result is
absence, not an error. -/
theorem C1_orchestrator_first_win (symbol interval : String) (limit : Nat) :
    (∀ (p : Provider) (rest : List Provider), p.supports symbol = false →
      fetchChain (p :: rest) symbol interval limit = fetchChain rest symbol interval limit) ∧
    (∀ (pre post : List Provider) (p : Provider) (l : List Candle),
      (∀ q ∈ pre, providerYields q symbol interval limit) →
      p.supports symbol = true → p.fetch symbol interval limit = .ok (some l) → l ≠ [] →
      fetchChain (pre ++ p :: post) symbol interval limit = .ok (some l)) ∧
    (∀ chain : List Provider, (∀ q ∈ chain, providerYields q symbol interval limit) →
      fetchChain chain symbol interval limit = .ok none) := by
  have step : ∀ (q : Provider) (rest : List Provider),
      providerYields q symbol interval limit →
      fetchChain (q :: rest) symbol interval limit = fetchChain rest symbol interval limit := by
    intro q rest hy
    rcases hy with hs | hf | hf
    · simp [fetchChain, hs]
    · cases hsup : q.supports symbol <;> simp [fetchChain, hsup, hf]
    · cases hsup : q.supports symbol <;> simp [fetchChain, hsup, hf]
  refine ⟨fun p rest hs => by simp [fetchChain, hs], ?_, ?_⟩
  · intro pre post p l hpre hsup hf hne
    induction pre with
    | nil =>
      simp only [List.nil_append, fetchChain, hsup, if_true, hf]
      simp [List.isEmpty_iff, hne]
    | cons q qs ih =>
      rw [List.cons_append, step q _ (hpre q (List.mem_cons_self q qs))]
      exact ih (fun r hr => hpre r (List.mem_cons_of_mem q hr))
  · intro chain hall
    induction chain with
    | nil => rfl
    | cons q qs ih =>
      rw [step q _ (hall q (List.mem_cons_self q qs))]
      exact ih (fun r hr => hall r (List.mem_cons_of_mem q hr))

theorem C1_orchestrator_first_win_witness :
    fetchChain [pSkip, pEmpty, pWin, pRaise] "X" "1d" 5 = .ok (some [witCandle]) :=
  (C1_orchestrator_first_win "X" "1d" 5).2.1 [pSkip, pEmpty] [pRaise] pWin [witCandle]
    (by
      intro q hq
      fin_cases hq
      · exact Or.inl rfl
      · exact Or.inr (Or.inl rfl))
    rfl rfl (by simp)

/-- C2: classification is by ordered first-match-wins pattern tests with
priority crypto > stock > international > forex > unknown; in particular a
symbol matching the crypto quote-suffix pattern is classified Crypto no
matter what else it matches, and its chain starts with the Binance
(crypto-exchange) provider. -/
theorem C2_classification_priority (s : String) :
    (matchCrypto (upperChars s) = true →
      classify s = AssetClass.Crypto ∧ (pick s).head? = some ProviderId.binance) ∧
    (matchCrypto (upperChars s) = false → matchStock (upperChars s) = true →
      classify s = AssetClass.Stock) ∧
    (matchCrypto (upperChars s) = false → matchStock (upperChars s) = false →
      matchIntl (upperChars s) = true → classify s = AssetClass.InternationalStock) ∧
    (matchCrypto (upperChars s) = false → matchStock (upperChars s) = false →
      matchIntl (upperChars s) = false → matchForex (upperChars s) = true →
      classify s = AssetClass.Forex) ∧
    (matchCrypto (upperChars s) = false → matchStock (upperChars s) = false →
      matchIntl (upperChars s) = false → matchForex (upperChars s) = false →
      classify s = AssetClass.Unknown) := by
  refine ⟨fun h1 => ⟨?_, ?_⟩, fun h1 h2 => ?_, fun h1 h2 h3 => ?_,
    fun h1 h2 h3 h4 => ?_, fun h1 h2 h3 h4 => ?_⟩ <;>
    simp [classify, pick, *]

theorem C2_classification_priority_witness :
    matchCrypto (upperChars "EURBTC") = true ∧ matchForex (upperChars "EURBTC") = true ∧
    classify "EURBTC" = AssetClass.Crypto ∧ (pick "EURBTC").head? = some ProviderId.binance :=
  ⟨by decide, by decide, ((C2_classification_priority "EURBTC").1 (by decide)).1,
    ((C2_classification_priority "EURBTC").1 (by decide)).2⟩

/-- C3: the routing table is exactly the spec's table — Crypto ↦
[Binance, yfinance], Stock ↦ [yfinance, Tiingo, Finnhub],
InternationalStock and Forex ↦ [yfinance, Finnhub], Unknown ↦ all four —
and for every symbol `pick` returns the chain of the class the symbol
classifies to. -/
theorem C3_pick_follows_routing_table : ∀ s : String, pick s = chainOf (classify s) := by
  intro s
  simp only [pick, classify]
  repeat' split
  all_goals rfl

/-- C4: a provider's fetch invoked with a supported interval but a missing
required credential raises a fatal RuntimeError (Tiingo without
TIINGO_API_KEY, Finnhub without FINNHUB_API_KEY), and an error raised by a
reached provider propagates out of the whole orchestrator walk — no later
provider in the chain is attempted. -/
theorem C4_missing_credential_fatal :
    (∀ (env : Env) (w : World) (s interval : String) (lim : Nat),
      (tiingoResample interval).isSome = true → keyMissing env.tiingoKey = true →
      tiingoFetch env w s interval lim =
        .error (.runtimeError "TIINGO_API_KEY environment variable is not set")) ∧
    (∀ (env : Env) (w : World) (s interval : String) (lim : Nat),
      (finnhubResolution interval).isSome = true → keyMissing env.finnhubKey = true →
      finnhubFetch env w s interval lim =
        .error (.runtimeError "FINNHUB_API_KEY environment variable is not set")) ∧
    (∀ (symbol interval : String) (limit : Nat) (e : PyError)
        (pre post : List Provider) (p : Provider),
      (∀ q ∈ pre, providerYields q symbol interval limit) →
      p.supports symbol = true → p.fetch symbol interval limit = .error e →
      fetchChain (pre ++ p :: post) symbol interval limit = .error e) := by
  refine ⟨fun env w s interval lim hi hk => ?_, fun env w s interval lim hi hk => ?_, ?_⟩
  · cases hres : tiingoResample interval with
    | none => rw [hres] at hi; cases hi
    | some r => simp [tiingoFetch, hres, hk]
  · cases hres : finnhubResolution interval with
    | none => rw [hres] at hi; cases hi
    | some r => simp [finnhubFetch, hres, hk]
  · intro symbol interval limit e pre post p hpre hsup hf
    induction pre with
    | nil => simp [fetchChain, hsup, hf]
    | cons q qs ih =>
      have step : fetchChain (q :: (qs ++ p :: post)) symbol interval limit =
          fetchChain (qs ++ p :: post) symbol interval limit := by
        rcases hpre q (List.mem_cons_self q qs) with hs | hfe | hfe
        · simp [fetchChain, hs]
        · cases hsq : q.supports symbol <;> simp [fetchChain, hsq, hfe]
        · cases hsq : q.supports symbol <;> simp [fetchChain, hsq, hfe]
      rw [List.cons_append, step]
      exact ih (fun r hr => hpre r (List.mem_cons_of_mem q hr))

theorem C4_missing_credential_fatal_witness :
    tiingoFetch noKeys emptyWorld "AAPL" "1d" 5 =
      .error (.runtimeError "TIINGO_API_KEY environment variable is not set") ∧
    fetchChain [pEmpty, pRaise, pWin] "X" "1d" 5 = .error (.runtimeError "boom") :=
  ⟨C4_missing_credential_fatal.1 noKeys emptyWorld "AAPL" "1d" 5 (by decide) (by decide),
    C4_missing_credential_fatal.2.2 "X" "1d" 5 (.runtimeError "boom") [pEmpty] [pWin] pRaise
      (by
        intro q hq
        fin_cases hq
        exact Or.inr (Or.inl rfl))
      rfl rfl⟩

/-- C5 counterexample: the claim fails for the Binance provider — a batch
containing one valid row and one row with `high < low` is not filtered;
the whole fetch aborts with the raised ValueError (and the orchestrator
call aborts with it too), instead of dropping the bad row and keeping the
valid one. -/
theorem C5_counterexample_binance_aborts :
    binanceFetch wBadRow "BTCUSDT" "1d" 5 = .error (.valueError "high must be >= low") ∧
    registryFetch noKeys wBadRow "BTCUSDT" "1d" 5 = .error (.valueError "high must be >= low") := by
  constructor <;> decide

/-- C5 (amended): for the yfinance, Tiingo and Finnhub providers, each row
is validated individually — the collected output is exactly the per-row
parses in order, a row whose parse fails is dropped without aborting the
rest, and a row with `high < low` parses to nothing. (The Binance provider
is excluded: it aborts the whole batch, see the counterexample.) -/
theorem C5_bad_rows_dropped :
    (∀ rows : List YfRow, yfCollect rows = rows.filterMap parseYfRow) ∧
    (∀ (pre post : List YfRow) (bad : YfRow), parseYfRow bad = none →
      yfCollect (pre ++ bad :: post) = yfCollect (pre ++ post)) ∧
    (∀ (r : YfRow) (hv lv : ℚ), r.h = some hv → r.l = some lv → hv < lv →
      parseYfRow r = none) ∧
    (∀ rows : List TiingoRow, tiingoCollect rows = rows.filterMap parseTiingoRow) ∧
    (∀ (pre post : List TiingoRow) (bad : TiingoRow), parseTiingoRow bad = none →
      tiingoCollect (pre ++ bad :: post) = tiingoCollect (pre ++ post)) ∧
    (∀ (r : TiingoRow) (hv lv : ℚ), tiingoPrice r.adjHigh r.rawHigh = some hv →
      tiingoPrice r.adjLow r.rawLow = some lv → hv < lv → parseTiingoRow r = none) ∧
    (∀ raw : FinnhubRaw, finnhubLoop raw 0 raw.t.length =
      (List.range raw.t.length).filterMap (parseFinnhubAt raw)) ∧
    (∀ (raw : FinnhubRaw) (i : Nat) (hv lv : ℚ), idx? raw.h i = some hv →
      idx? raw.l i = some lv → hv < lv → parseFinnhubAt raw i = none) := by
  refine ⟨yfCollect_eq_filterMap, ?_, ?_, tiingoCollect_eq_filterMap, ?_, ?_, ?_, ?_⟩
  · intro pre post bad hbad
    simp [yfCollect_eq_filterMap, List.filterMap_append, List.filterMap_cons, hbad]
  · intro r hv lv hh hl hlt
    cases ho : r.o <;> cases hc : r.c <;>
      simp [parseYfRow, ho, hh, hl, hc, Candle.mk?, hlt, Except.toOption]
  · intro pre post bad hbad
    simp [tiingoCollect_eq_filterMap, List.filterMap_append, List.filterMap_cons, hbad]
  · intro r hv lv hh hl hlt
    cases hd : r.date <;>
      cases ho : tiingoPrice r.adjOpen r.rawOpen <;>
      cases hc : tiingoPrice r.adjClose r.rawClose <;>
      simp [parseTiingoRow, hd, ho, hh, hl, hc, Candle.mk?, hlt, Except.toOption]
  · intro raw
    rw [List.range_eq_range', finnhubLoop_eq_filterMap]
  · intro raw i hv lv hh hl hlt
    cases ht : idx? raw.t i <;>
      cases ho : idx? raw.o i <;>
      cases hc : idx? raw.c i <;>
      cases hvv : finnhubVolAt (finnhubVolumes raw) i <;>
      simp [parseFinnhubAt, ht, ho, hh, hl, hc, hvv, Candle.mk?, hlt, Except.toOption]

theorem C5_bad_rows_dropped_witness :
    parseYfRow yfBadRow = none ∧
    yfCollect [yfGoodRow, yfBadRow] = yfCollect [yfGoodRow] ∧
    yfCollect [yfGoodRow] = List.filterMap parseYfRow [yfGoodRow] :=
  ⟨C5_bad_rows_dropped.2.2.1 yfBadRow 1 2 rfl rfl (by decide),
    C5_bad_rows_dropped.2.1 [yfGoodRow] [] yfBadRow
      (C5_bad_rows_dropped.2.2.1 yfBadRow 1 2 rfl rfl (by decide)),
    C5_bad_rows_dropped.1 [yfGoodRow]⟩

/-- C6 counterexample: the claim fails in two ways. With limit 1, the
Binance provider performs no local truncation, so an upstream answer of
two rows makes the orchestrator return two candles. With limit 0, the
Tiingo slice `rows[-0:]` is the whole batch, so the orchestrator returns
one candle instead of at most zero. -/
theorem C6_counterexample_limit_exceeded :
    (registryFetch noKeys wTwoRows "BTCUSDT" "1d" 1 = .ok (some binTwoCandles) ∧
      binTwoCandles.length = 2) ∧
    (registryFetch tiingoEnv wTiingoOne "AAPL" "1d" 0 = .ok (some tiingoOneCandle) ∧
      tiingoOneCandle.length = 1) :=
  ⟨⟨by decide, by decide⟩, ⟨by decide, by decide⟩⟩

/-- C6 (amended): for every positive limit, and provided the Binance
upstream answers at most the `min limit 1000` rows the request asked for,
the orchestrator never returns more than `limit` candles, and a non-absent
result never holds fewer than one candle. -/
theorem C6_amended_limit_bounds (env : Env) (w : World) (symbol interval : String)
    (limit : Nat) (l : List Candle) (hpos : 1 ≤ limit)
    (hbin : w.binanceData.length ≤ min limit 1000)
    (hf : registryFetch env w symbol interval limit = .ok (some l)) :
    1 ≤ l.length ∧ l.length ≤ limit := by
  obtain ⟨p, hp, hpf, hne⟩ := fetchChain_ok_some _ _ _ _ _ hf
  obtain ⟨pid, hpid, rfl⟩ := List.mem_map.mp hp
  refine ⟨by have := List.length_pos.mpr hne; omega, ?_⟩
  cases pid with
  | binance =>
    have hpf' : binanceFetch w symbol interval limit = .ok (some l) := hpf
    have hl := binanceFetch_ok_length hpf'
    omega
  | yfinance =>
    have hpf' : yfFetch w symbol interval limit = .ok (some l) := hpf
    exact yfFetch_ok_length hpf'
  | tiingo =>
    have hpf' : tiingoFetch env w symbol interval limit = .ok (some l) := hpf
    exact tiingoFetch_ok_length hpos hpf'
  | finnhub =>
    have hpf' : finnhubFetch env w symbol interval limit = .ok (some l) := hpf
    exact finnhubFetch_ok_length hpos hpf'

theorem C6_amended_limit_bounds_witness :
    1 ≤ binTwoCandles.length ∧ binTwoCandles.length ≤ 3 :=
  C6_amended_limit_bounds noKeys wTwoRows "BTCUSDT" "1d" 3 binTwoCandles
    (by decide) (by decide) (by decide)

/-- C7 counterexample: the code never sorts — when the Binance upstream
answers two valid rows newest-first, the orchestrator returns the two
candles in that same (not oldest-first) order. -/
theorem C7_counterexample_unsorted_result :
    registryFetch noKeys wReversed "BTCUSDT" "1d" 5 = .ok (some reversedCandles) ∧
    ¬ (reversedCandles.map Candle.time).Pairwise (· < ·) :=
  ⟨by decide, by decide⟩

/-- C7 (amended): provided every upstream batch is strictly increasing in
(converted) bar time, every candle sequence the orchestrator returns is
strictly ordered oldest-first by `time` — per-row filtering and tail
truncation preserve the upstream order, and exactly one provider's output
is returned. -/
theorem C7_amended_oldest_first (env : Env) (w : World) (symbol interval : String)
    (limit : Nat) (l : List Candle) (hw : worldTimesOrdered w = true)
    (hf : registryFetch env w symbol interval limit = .ok (some l)) :
    (l.map Candle.time).Pairwise (· < ·) := by
  rw [worldTimesOrdered] at hw
  simp only [Bool.and_eq_true] at hw
  obtain ⟨⟨⟨⟨h1, h2⟩, h3⟩, h4⟩, h5⟩ := hw
  obtain ⟨p, hp, hpf, hne⟩ := fetchChain_ok_some _ _ _ _ _ hf
  obtain ⟨pid, hpid, rfl⟩ := List.mem_map.mp hp
  cases pid with
  | binance =>
    have hpf' : binanceFetch w symbol interval limit = .ok (some l) := hpf
    exact binanceFetch_ok_sorted h1 hpf'
  | yfinance =>
    have hpf' : yfFetch w symbol interval limit = .ok (some l) := hpf
    refine yfFetch_ok_sorted (fun df hdf => ?_) hpf'
    rw [hdf] at h2
    exact h2
  | tiingo =>
    have hpf' : tiingoFetch env w symbol interval limit = .ok (some l) := hpf
    refine tiingoFetch_ok_sorted (fun rows hrows => ?_) hpf'
    rw [hrows] at h3
    exact h3
  | finnhub =>
    have hpf' : finnhubFetch env w symbol interval limit = .ok (some l) := hpf
    refine finnhubFetch_ok_sorted (fun raw hraw => ?_) (fun raw hraw => ?_) hpf'
    · rw [hraw] at h4
      exact h4
    · rw [hraw] at h5
      exact h5

theorem C7_amended_oldest_first_witness :
    (binTwoCandles.map Candle.time).Pairwise (· < ·) :=
  C7_amended_oldest_first noKeys wTwoRows "BTCUSDT" "1d" 5 binTwoCandles
    (by decide) (by decide)

/-- C8: invoking any of the four providers' fetch with an interval outside
that provider's declared supported set returns absence, never an error —
in particular `4h` yields absence from yfinance, Tiingo and Finnhub. -/
theorem C8_unsupported_interval_absence :
    (∀ (w : World) (s interval : String) (lim : Nat),
      binanceIntervals.contains interval = false → binanceFetch w s interval lim = .ok none) ∧
    (∀ (w : World) (s interval : String) (lim : Nat),
      yfIntervalMap interval = none → yfFetch w s interval lim = .ok none) ∧
    (∀ (env : Env) (w : World) (s interval : String) (lim : Nat),
      tiingoResample interval = none → tiingoFetch env w s interval lim = .ok none) ∧
    (∀ (env : Env) (w : World) (s interval : String) (lim : Nat),
      finnhubResolution interval = none → finnhubFetch env w s interval lim = .ok none) := by
  refine ⟨fun w s interval lim hi => ?_, fun w s interval lim hi => ?_,
    fun env w s interval lim hi => ?_, fun env w s interval lim hi => ?_⟩
  · simp only [binanceFetch, hi, Bool.not_false, if_true]
  · simp [yfFetch, hi]
  · simp [tiingoFetch, hi]
  · simp [finnhubFetch, hi]

theorem C8_unsupported_interval_absence_witness :
    binanceFetch emptyWorld "BTCUSDT" "7h" 5 = .ok none ∧
    yfFetch emptyWorld "AAPL" "4h" 5 = .ok none ∧
    tiingoFetch noKeys emptyWorld "AAPL" "4h" 5 = .ok none ∧
    finnhubFetch noKeys emptyWorld "AAPL" "4h" 5 = .ok none :=
  ⟨C8_unsupported_interval_absence.1 emptyWorld "BTCUSDT" "7h" 5 (by decide),
    C8_unsupported_interval_absence.2.1 emptyWorld "AAPL" "4h" 5 (by decide),
    C8_unsupported_interval_absence.2.2.1 noKeys emptyWorld "AAPL" "4h" 5 (by decide),
    C8_unsupported_interval_absence.2.2.2 noKeys emptyWorld "AAPL" "4h" 5 (by decide)⟩

/-- C9: a successfully constructed candle satisfies `high >= low` and
`time > 0` and holds exactly the fields it was given (never clamped); a
construction with `high < low` or non-positive `time` is rejected with an
error. (Immutability is structural: the Python dataclass is frozen and the
Lean value is immutable by construction.) -/
theorem C9_candle_invariants (t : Int) (o h l c v : ℚ) :
    (∀ cd, Candle.mk? t o h l c v = .ok cd →
      cd.low ≤ cd.high ∧ 0 < cd.time ∧
      cd = { time := t, «open» := o, high := h, low := l, close := c, volume := v }) ∧
    ((h < l ∨ t ≤ 0) → ∀ cd, Candle.mk? t o h l c v ≠ .ok cd) := by
  constructor
  · intro cd hcd
    unfold Candle.mk? at hcd
    split at hcd
    · cases hcd
    · split at hcd
      · cases hcd
      · cases hcd
        refine ⟨le_of_not_lt ‹¬ h < l›, ?_, rfl⟩
        show (0 : Int) < t
        omega
  · intro hbad cd
    unfold Candle.mk?
    split
    · intro hh; cases hh
    · split
      · intro hh; cases hh
      · rcases hbad with hb | hb
        · exact absurd hb ‹¬ h < l›
        · exact absurd hb ‹¬ t ≤ 0›

theorem C9_candle_invariants_witness :
    ((⟨5, 1, 3, 2, 2, 0⟩ : Candle).low ≤ (⟨5, 1, 3, 2, 2, 0⟩ : Candle).high ∧
      0 < (⟨5, 1, 3, 2, 2, 0⟩ : Candle).time ∧
      (⟨5, 1, 3, 2, 2, 0⟩ : Candle) = ⟨5, 1, 3, 2, 2, 0⟩) ∧
    Candle.mk? 1 1 1 2 1 0 ≠ .ok ⟨1, 1, 1, 2, 1, 0⟩ :=
  ⟨(C9_candle_invariants 5 1 3 2 2 0).1 ⟨5, 1, 3, 2, 2, 0⟩ (by decide),
    (C9_candle_invariants 1 1 1 2 1 0).2 (Or.inl (by decide)) ⟨1, 1, 1, 2, 1, 0⟩⟩

/-- C10: for the Tiingo and Finnhub providers the unsupported-interval
check precedes the credential check — an unsupported interval returns
absence even with the API-key variable unset, and a raised error implies
the interval was supported. -/
theorem C10_interval_check_precedes_credential_check :
    (∀ (env : Env) (w : World) (s interval : String) (lim : Nat),
      keyMissing env.tiingoKey = true → tiingoResample interval = none →
      tiingoFetch env w s interval lim = .ok none) ∧
    (∀ (env : Env) (w : World) (s interval : String) (lim : Nat),
      keyMissing env.finnhubKey = true → finnhubResolution interval = none →
      finnhubFetch env w s interval lim = .ok none) ∧
    (∀ (env : Env) (w : World) (s interval : String) (lim : Nat) (e : PyError),
      tiingoFetch env w s interval lim = .error e → (tiingoResample interval).isSome = true) ∧
    (∀ (env : Env) (w : World) (s interval : String) (lim : Nat) (e : PyError),
      finnhubFetch env w s interval lim = .error e →
      (finnhubResolution interval).isSome = true) := by
  refine ⟨fun env w s interval lim _ hi => ?_, fun env w s interval lim _ hi => ?_,
    fun env w s interval lim e he => ?_, fun env w s interval lim e he => ?_⟩
  · simp [tiingoFetch, hi]
  · simp [finnhubFetch, hi]
  · unfold tiingoFetch at he
    cases hres : tiingoResample interval <;> simp [hres] at he ⊢
  · unfold finnhubFetch at he
    cases hres : finnhubResolution interval <;> simp [hres] at he ⊢

theorem C10_interval_check_precedes_credential_check_witness :
    tiingoFetch noKeys emptyWorld "AAPL" "4h" 5 = .ok none ∧
    finnhubFetch noKeys emptyWorld "EURUSD" "4h" 5 = .ok none ∧
    (tiingoResample "1d").isSome = true :=
  ⟨C10_interval_check_precedes_credential_check.1 noKeys emptyWorld "AAPL" "4h" 5
      (by decide) (by decide),
    C10_interval_check_precedes_credential_check.2.1 noKeys emptyWorld "EURUSD" "4h" 5
      (by decide) (by decide),
    C10_interval_check_precedes_credential_check.2.2.1 noKeys emptyWorld "AAPL" "1d" 5
      (PyError.runtimeError "TIINGO_API_KEY environment variable is not set") (by decide)⟩
